import Mathlib

/-!
Verification of the calendar-app parsing and lane-assignment core.

This file shallowly embeds, from the TypeScript source:
  * `parseNaturalLanguage` (client/src/lib/dateParser.ts),
  * `parseLineToEvents` and `guessType` (client/src/lib/bulkParser.ts),
  * `assignEventLanes` (the quarter-view calendar component),
together with the pieces of JavaScript / date-fns v3 behaviour they rely
on: first-match regular-expression search with greedy backtracking,
`String.prototype.replace`, civil-calendar day arithmetic
(days-from-civil / civil-from-days), date-fns `parse` with the
`"LLLL d, yyyy"` format, and date-fns v3 `eachDayOfInterval` (which
returns a reversed list, rather than throwing, for inverted intervals).
-/

namespace Cal

/-! ## Characters and strings (JS semantics on `List Char`) -/

def isWsChar (c : Char) : Bool :=
  c = ' ' || c = '\t' || c = '\n' || c = '\r' || c = '\x0b' || c = '\x0c'

def isDigitChar (c : Char) : Bool :=
  '0' ≤ c && c ≤ '9'

def isAlphaChar (c : Char) : Bool :=
  ('a' ≤ c && c ≤ 'z') || ('A' ≤ c && c ≤ 'Z')

def isWordChar (c : Char) : Bool :=
  isAlphaChar c || isDigitChar c || c = '_'

def lowerChar (c : Char) : Char :=
  if 'A' ≤ c && c ≤ 'Z' then Char.ofNat (c.toNat + 32) else c

def lowerStr (s : List Char) : List Char := s.map lowerChar

def trimLeft : List Char → List Char
  | [] => []
  | c :: cs => if isWsChar c then trimLeft cs else c :: cs

def trimStr (s : List Char) : List Char :=
  trimLeft (trimLeft s.reverse).reverse

/-- Is `pre` a (case-insensitive) prefix of `s`? -/
def ciPref : List Char → List Char → Bool
  | [], _ => true
  | _ :: _, [] => false
  | p :: ps, c :: cs => lowerChar p = lowerChar c && ciPref ps cs

/-- Substring containment (used for JS `String.prototype.includes`). -/
def containsSub (hay needle : List Char) : Bool :=
  match hay with
  | [] => needle.isEmpty
  | _ :: rest => ciPrefExact needle hay || containsSub rest needle
where
  /-- exact (case-sensitive) prefix test -/
  ciPrefExact : List Char → List Char → Bool
    | [], _ => true
    | _ :: _, [] => false
    | p :: ps, c :: cs => p = c && ciPrefExact ps cs

/-- Index of the first occurrence of `needle` in `hay` (JS `indexOf`),
`none` if absent. -/
def indexOfSub (hay needle : List Char) : Option Nat :=
  match hay with
  | [] => if needle.isEmpty then some 0 else none
  | _ :: rest =>
    if containsSub.ciPrefExact needle hay then some 0
    else (indexOfSub rest needle).map (· + 1)

/-- Digits-string to number (JS `parseInt` on an all-digit string). -/
def natOfDigits (s : List Char) : Nat :=
  s.foldl (fun acc c => acc * 10 + (c.toNat - '0'.toNat)) 0

/-- Left-pad with `'0'` to two characters (JS `padStart(2, '0')`). -/
def pad2 (s : List Char) : List Char :=
  if s.length < 2 then '0' :: s else s

def natDigits (n : Nat) : List Char := (toString n).data

def intDigits (n : Int) : List Char := (toString n).data

/-! ## A small regular-expression engine

Models the exact JavaScript regex features the two parsers use:
single-character classes, case-insensitive literals, concatenation,
ordered alternation, greedy `?`, `*`, `+` and `{m,n}` over character
classes, numbered capture groups, and the `$` end anchor.  `reRun`
returns the backtracking alternatives of an anchored match in JS
priority order (greedy first, left alternative first); `reSearch`
scans start positions left to right, so its first answer is exactly
the match JS `String.prototype.match` / `.replace` would use. -/

inductive RE where
  | cls (p : Char → Bool)
  | lit (s : List Char)
  | seq (a b : RE)
  | alt (a b : RE)
  | opt (a : RE)
  | rep (p : Char → Bool) (lo hi : Nat)
  | star (p : Char → Bool)
  | plus (p : Char → Bool)
  | grp (i : Nat) (a : RE)
  | eos

abbrev Caps := List (Nat × List Char)

/-- Length of the longest prefix of `cs` all of whose characters
satisfy `p`. -/
def runLen (p : Char → Bool) : List Char → Nat
  | [] => 0
  | c :: cs => if p c then runLen p cs + 1 else 0

/-- The drop-counts `n, n-1, ..., lo` (greedy order) that a
`p{lo,hi}` repetition may consume from `cs`. -/
def repCounts (p : Char → Bool) (lo hi : Nat) (cs : List Char) : List Nat :=
  let n := min hi (runLen p cs)
  (List.range (n + 1)).reverse.filter (lo ≤ ·)

def ciStrip : List Char → List Char → Option (List Char)
  | [], cs => some cs
  | _ :: _, [] => none
  | p :: ps, c :: cs => if lowerChar p = lowerChar c then ciStrip ps cs else none

/-- All anchored-match outcomes of `re` on `cs`, each as
(remaining input, captures), in JS backtracking priority order. -/
def reRun : RE → List Char → List (List Char × Caps)
  | .cls p, cs =>
    match cs with
    | [] => []
    | c :: rest => if p c then [(rest, [])] else []
  | .lit s, cs =>
    match ciStrip s cs with
    | some rest => [(rest, [])]
    | none => []
  | .seq a b, cs =>
    (reRun a cs).flatMap fun (r1, c1) =>
      (reRun b r1).map fun (r2, c2) => (r2, c1 ++ c2)
  | .alt a b, cs => reRun a cs ++ reRun b cs
  | .opt a, cs => reRun a cs ++ [(cs, [])]
  | .rep p lo hi, cs => (repCounts p lo hi cs).map fun n => (cs.drop n, [])
  | .star p, cs => (repCounts p 0 cs.length cs).map fun n => (cs.drop n, [])
  | .plus p, cs => (repCounts p 1 cs.length cs).map fun n => (cs.drop n, [])
  | .grp i a, cs =>
    (reRun a cs).map fun (rest, c) =>
      (rest, (i, cs.take (cs.length - rest.length)) :: c)
  | .eos, cs => if cs.isEmpty then [([], [])] else []

/-- A match: start index, matched text, captures. -/
structure RMatch where
  start : Nat
  matched : List Char
  caps : Caps
deriving Repr, DecidableEq

/-- Leftmost match (JS `.match` / `.exec` without `g`). -/
def reSearch (re : RE) (s : List Char) : Option RMatch :=
  go s 0
where
  go : List Char → Nat → Option RMatch
    | cs, i =>
      match reRun re cs with
      | (rest, caps) :: _ =>
        some ⟨i, cs.take (cs.length - rest.length), caps⟩
      | [] =>
        match cs with
        | [] => none
        | _ :: tl => go tl (i + 1)

def reTest (re : RE) (s : List Char) : Bool := (reSearch re s).isSome

/-- Capture-group value: `none` both when the group did not
participate and (like JS falsiness on `""`) we only ever branch on
groups that are non-empty when present. -/
def capGet (caps : Caps) (i : Nat) : Option (List Char) :=
  (caps.find? (·.1 = i)).map (·.2)

/-- JS `String.prototype.replace` with a non-global regex:
replace the first match. -/
def replaceFirst (re : RE) (repl : List Char) (s : List Char) : List Char :=
  match reSearch re s with
  | none => s
  | some m => s.take m.start ++ repl ++ s.drop (m.start + m.matched.length)

/-- JS `String.prototype.replace` with a global regex: repeatedly
replace, continuing after each replacement.  All patterns used with
`g` here consume at least one character, so fuel `s.length + 1`
suffices. -/
def replaceAllFuel : Nat → RE → List Char → List Char → List Char
  | 0, _, _, s => s
  | fuel + 1, re, repl, s =>
    match reSearch re s with
    | none => s
    | some m =>
      s.take m.start ++ repl ++
        replaceAllFuel fuel re repl (s.drop (m.start + m.matched.length))

def replaceAll (re : RE) (repl : List Char) (s : List Char) : List Char :=
  replaceAllFuel (s.length + 1) re repl s

/-! ## Civil-calendar day arithmetic

JS `Date` holds an instant; the code only ever uses local civil
dates at midnight, so a date is modelled as its day number (days since
1970-01-01), converted to and from (year, month, day) with the
standard civil-calendar algorithms.  Setting day-of-month `d` on
month `m` is `daysFromCivil y m 1 + (d - 1)`, which reproduces JS
day-overflow normalization. -/

def daysFromCivil (y m d : Int) : Int :=
  let y' := if m ≤ 2 then y - 1 else y
  let era := Int.fdiv y' 400
  let yoe := y' - era * 400
  let mp := if 2 < m then m - 3 else m + 9
  let doy := Int.fdiv (153 * mp + 2) 5 + d - 1
  let doe := yoe * 365 + Int.fdiv yoe 4 - Int.fdiv yoe 100 + doy
  era * 146097 + doe - 719468

structure Ymd where
  year : Int
  month : Int
  day : Int
deriving Repr, DecidableEq

def civilFromDays (z : Int) : Ymd :=
  let z' := z + 719468
  let era := Int.fdiv z' 146097
  let doe := z' - era * 146097
  let yoe := Int.fdiv (doe - Int.fdiv doe 1460 + Int.fdiv doe 36524 - Int.fdiv doe 146096) 365
  let y := yoe + era * 400
  let doy := doe - (365 * yoe + Int.fdiv yoe 4 - Int.fdiv yoe 100)
  let mp := Int.fdiv (5 * doy + 2) 153
  let d := doy - Int.fdiv (153 * mp + 2) 5 + 1
  let m := if mp < 10 then mp + 3 else mp - 9
  ⟨if m ≤ 2 then y + 1 else y, m, d⟩

/-- Model of `formatDateSafe` in dateParser.ts and date-fns `formatISO` with
`representation: 'date'` both build `` `${year}-${MM}-${dd}` `` from the
local civil fields, month and day zero-padded to two characters. -/
def isoOfDays (z : Int) : List Char :=
  let c := civilFromDays z
  intDigits c.year ++ '-' :: pad2 (intDigits c.month) ++ '-' :: pad2 (intDigits c.day)

/-- The while-loop of `eachDayOfInterval`: `n` consecutive days
starting at `a`. -/
def climb (a : Int) : Nat → List Int
  | 0 => []
  | n + 1 => a :: climb (a + 1) n

/-- date-fns v3 `eachDayOfInterval`: iterates day by day from the
earlier endpoint to the later one, then reverses when the interval
was given inverted — so the result always runs from `a` to `b`
inclusive.  (v3 no longer throws on inverted intervals.) -/
def eachDay (a b : Int) : List Int :=
  if a ≤ b then climb a (b - a + 1).toNat
  else (climb b (a - b + 1).toNat).reverse

/-! ## date-fns `parse` with format `"LLLL d, yyyy"` (en-US) -/

def wideMonths : List (List Char) :=
  ["january", "february", "march", "april", "may", "june", "july",
   "august", "september", "october", "november", "december"].map String.data

def abbrMonths : List (List Char) :=
  ["jan", "feb", "mar", "apr", "may", "jun", "jul", "aug", "sep",
   "oct", "nov", "dec"].map String.data

def narrowMonthOf (c : Char) : Option Nat :=
  let l := lowerChar c
  if l = 'j' then some 1 else if l = 'f' then some 2
  else if l = 'm' then some 3 else if l = 'a' then some 4
  else if l = 's' then some 9 else if l = 'o' then some 10
  else if l = 'n' then some 11 else if l = 'd' then some 12 else none

def tryPrefList (names : List (List Char)) (s : List Char) (i : Nat) :
    Option (Nat × List Char) :=
  match names with
  | [] => none
  | n :: rest =>
    match ciStrip n s with
    | some r => some (i, r)
    | none => tryPrefList rest s (i + 1)

/-- The en-US month matcher: wide names first, then abbreviated,
then narrow single letters; case-insensitive prefix match.
Returns the month (1..12) and the unconsumed input. -/
def monthFromPref (s : List Char) : Option (Nat × List Char) :=
  match tryPrefList wideMonths s 1 with
  | some r => some r
  | none =>
    match tryPrefList abbrMonths s 1 with
    | some r => some r
    | none =>
      match s with
      | [] => none
      | c :: rest => (narrowMonthOf c).map (·, rest)

/-- Greedily take at most `hi` leading digits (at least one). -/
def takeDigits (hi : Nat) (s : List Char) : Option (Nat × List Char) :=
  let ds := (s.take hi).takeWhile isDigitChar
  if ds.isEmpty then none else some (natOfDigits ds, s.drop ds.length)

def expectChar (c : Char) : List Char → Option (List Char)
  | [] => none
  | x :: rest => if x = c then some rest else none

/-- date-fns `parse(str, "LLLL d, yyyy", ref)`: month name, space,
1-2 digit day validated to 1..31 (set with overflow normalization),
comma, space, up-to-4-digit year; fails (Invalid Date) otherwise. -/
def parseLLLLdyyyy (s : List Char) : Option Int := do
  let (m, r1) ← monthFromPref s
  let r2 ← expectChar ' ' r1
  let (d, r3) ← takeDigits 2 r2
  if d < 1 || 31 < d then none else
  let r4 ← expectChar ',' r3
  let r5 ← expectChar ' ' r4
  let (y, r6) ← takeDigits 4 r5
  if r6.isEmpty then
    some (daysFromCivil (y : Int) (m : Int) 1 + ((d : Int) - 1))
  else none

/-- The bulk parser always calls `parse` on `` `${m} ${d}, ${yyyy}` ``. -/
def parseExactMDY (mw dstr ystr : List Char) : Option Int :=
  parseLLLLdyyyy (mw ++ ' ' :: (dstr ++ ',' :: ' ' :: ystr))

/-! ## bulkParser.ts -/

inductive EventType where
  | PLANNING
  | MEETING
  | MONTHLY_REVIEW
  | HOLIDAYS
deriving Repr, DecidableEq

structure BulkEvent where
  type : EventType
  title : String
  date : String
  startDate : Option String
  endDate : Option String
deriving Repr, DecidableEq

/-- Model of `guessType` from bulkParser.ts: keyword checks on the lower-cased
title, first match wins, default PLANNING. -/
def guessType (titleRaw : List Char) : EventType :=
  let t := lowerStr titleRaw
  if containsSub t "monthly review".data then .MONTHLY_REVIEW
  else if containsSub t "holiday".data || containsSub t "annual leave".data ||
      containsSub t "pto".data then .HOLIDAYS
  else if containsSub t "meeting".data || containsSub t "review".data ||
      containsSub t "alignment".data || containsSub t "kickoff".data then .MEETING
  else .PLANNING

def reseq (r : RE) (rs : List RE) : RE := rs.foldl .seq r

def altOf (r : RE) (rs : List RE) : RE := rs.foldl .alt r

/-- Regex `/\s*\([^)]+\)\s*$/` -/
def trailParenRE : RE :=
  reseq (.star isWsChar)
    [.lit "(".data, .plus (· ≠ ')'), .lit ")".data, .star isWsChar, .eos]

/-- Model of `cleanTitle`: drop a trailing parenthetical, then trim. -/
def cleanTitle (s : List Char) : List Char :=
  trimStr (replaceFirst trailParenRE [] s)

/-- Regex `/[–—]/g` (en-dash / em-dash). -/
def dashCharRE : RE := .cls (fun c => c = '–' || c = '—')

/-- Regex `/\s*-\s*/g` -/
def spacedDashRE : RE :=
  reseq (.star isWsChar) [.lit "-".data, .star isWsChar]

/-- Regex `/\([^)]+\)/g` -/
def parenRE : RE :=
  reseq (.lit "(".data) [.plus (· ≠ ')'), .lit ")".data]

/-- Regex `/week of\s+/i` -/
def weekOfRE : RE := .seq (.lit "week of".data) (.plus isWsChar)

/-- The alternatives of the bulk parser's month regex, in source
order: the twelve abbreviations, then the twelve full names. -/
def monthWords : List (List Char) :=
  abbrMonths ++ wideMonths

/-- One position of `/\b(jan|...|december)\b/i`: the first alternative
that is a case-insensitive prefix here and is followed by a word
boundary (the leading boundary is checked by the caller). -/
def monthTokenAt (s : List Char) : Option (List Char) :=
  goWords monthWords
where
  goWords : List (List Char) → Option (List Char)
    | [] => none
    | w :: rest =>
      if ciPref w s && (match (s.drop w.length).head? with
          | none => true
          | some c => !isWordChar c) then
        some (s.take w.length)
      else goWords rest

/-- Leftmost match of the month regex, returning the matched text
(`m[0]`, in original case). -/
def monthRegexFind (s : List Char) : Option (List Char) :=
  go none s
where
  go : Option Char → List Char → Option (List Char)
    | prev, cs =>
      let boundary := match prev with
        | none => true
        | some c => !isWordChar c
      match (if boundary then monthTokenAt cs else none) with
      | some w => some w
      | none =>
        match cs with
        | [] => none
        | c :: tl => go (some c) tl

/-- Regex `range1 = /([a-zA-Z]+)\s+(\d{1,2})\s*-\s*([a-zA-Z]+)?\s*(\d{1,2}),\s*(\d{4})/` -/
def range1RE : RE :=
  reseq (.grp 1 (.plus isAlphaChar))
    [.plus isWsChar, .grp 2 (.rep isDigitChar 1 2), .star isWsChar,
     .lit "-".data, .star isWsChar, .opt (.grp 3 (.plus isAlphaChar)),
     .star isWsChar, .grp 4 (.rep isDigitChar 1 2), .lit ",".data,
     .star isWsChar, .grp 5 (.rep isDigitChar 4 4)]

/-- Regex `range2 = /([a-zA-Z]+)\s+(\d{1,2})-(\d{1,2}),\s*(\d{4})/` -/
def range2RE : RE :=
  reseq (.grp 1 (.plus isAlphaChar))
    [.plus isWsChar, .grp 2 (.rep isDigitChar 1 2), .lit "-".data,
     .grp 3 (.rep isDigitChar 1 2), .lit ",".data, .star isWsChar,
     .grp 4 (.rep isDigitChar 4 4)]

/-- Expand two parsed endpoints; a failed parse (Invalid Date) makes
`eachDayOfInterval` return `[]`. -/
def datesOf : Option Int → Option Int → List Int
  | some a, some b => eachDay a b
  | _, _ => []

/-- The `dates` computed for a line's date part.  `chrono` is the
external chrono-node single-date parser (`chrono.parseDate`), an
oracle: every claim proved below holds for all of its behaviours. -/
def lineDates (chrono : List Char → Option Int) (weekOf : Bool)
    (datePart : List Char) : List Int :=
  if reTest range1RE datePart then
    match reSearch range1RE datePart with
    | some m => range1Dates m.caps
    | none => []
  else if reTest range2RE datePart then
    match reSearch range2RE datePart with
    | some m => range2Dates m.caps
    | none => []
  else if weekOf then
    let after := replaceFirst weekOfRE [] datePart
    if reTest range1RE after then
      match reSearch range1RE after with
      | some m => range1Dates m.caps
      | none => []
    else if reTest range2RE after then
      match reSearch range2RE after with
      | some m => range2Dates m.caps
      | none => []
    else
      match chrono after with
      | some d => eachDay d (d + 4)
      | none => []
  else
    match chrono datePart with
    | some d => [d]
    | none => []
where
  range1Dates (caps : Caps) : List Int :=
    let m1 := (capGet caps 1).getD []
    let d1 := (capGet caps 2).getD []
    let m2 := match capGet caps 3 with
      | some x => x
      | none => (capGet caps 1).getD []
    let d2 := (capGet caps 4).getD []
    let y := (capGet caps 5).getD []
    datesOf (parseExactMDY m1 d1 y) (parseExactMDY m2 d2 y)
  range2Dates (caps : Caps) : List Int :=
    let m1 := (capGet caps 1).getD []
    let d1 := (capGet caps 2).getD []
    let d2 := (capGet caps 3).getD []
    let y := (capGet caps 4).getD []
    datesOf (parseExactMDY m1 d1 y) (parseExactMDY m1 d2 y)

/-- Title-candidate / date-candidate split at the first month token. -/
def splitTitleDate (s : List Char) : List Char × List Char :=
  match monthRegexFind s with
  | some m0 =>
    -- the matched token occurs in the string, so indexOf always finds it
    let idx := (indexOfSub (lowerStr s) (lowerStr m0)).getD 0
    (cleanTitle (s.take idx), s.drop idx)
  | none => (cleanTitle s, s)

/-- Final draft construction: one multi-day draft when more than one
day was expanded, else one single-day draft per date. -/
def mkBulkDrafts (ty : EventType) (title : List Char) (dates : List Int) :
    List BulkEvent :=
  if 1 < dates.length then
    let s := String.mk (isoOfDays (dates.headD 0))
    let e := String.mk (isoOfDays (dates.getLastD 0))
    [⟨ty, String.mk title, s, some s, some e⟩]
  else
    dates.map fun d => ⟨ty, String.mk title, String.mk (isoOfDays d), none, none⟩

/-- Model of `parseLineToEvents` from bulkParser.ts. -/
def parseLineToEvents (chrono : List Char → Option Int) (line : String) :
    List BulkEvent :=
  let raw := trimStr line.data
  if raw.isEmpty then []
  else
    let s1 := replaceAll dashCharRE "-".data raw
    let s2 := replaceAll spacedDashRE " - ".data s1
    let s := trimStr (replaceAll parenRE [] s2)
    let weekOf := reTest weekOfRE s
    let titlePart := (splitTitleDate s).1
    let datePart := (splitTitleDate s).2
    let dates := lineDates chrono weekOf datePart
    let title := let ct := cleanTitle titlePart
      if ct.isEmpty then "Event".data else ct
    mkBulkDrafts (guessType title) title dates

/-! ## dateParser.ts (`parseNaturalLanguage`)

`today` (the JS `new Date()` at call time) is modelled as its local
civil day number, an explicit parameter. -/

structure ParsedEvent where
  title : String
  date : String
  endDate : Option String
  startTime : Option String
  endTime : Option String
  type : Option EventType
deriving Repr, DecidableEq

/-- Keyword type inference over the whole (lower-cased) input. -/
def nlType (lowered : List Char) : Option EventType :=
  if containsSub lowered "planning".data || containsSub lowered "pi planning".data ||
      containsSub lowered "qbr planning".data then some .PLANNING
  else if containsSub lowered "monthly review".data ||
      containsSub lowered "month review".data ||
      containsSub lowered "monthly".data then some .MONTHLY_REVIEW
  else if containsSub lowered "meeting".data || containsSub lowered "standup".data ||
      containsSub lowered "review".data || containsSub lowered "retrospective".data ||
      containsSub lowered "qbr".data then some .MEETING
  else if containsSub lowered "holiday".data || containsSub lowered "vacation".data ||
      containsSub lowered "thanksgiving".data || containsSub lowered "veterans".data ||
      containsSub lowered "christmas".data then some .HOLIDAYS
  else none

/-- The `monthMap` object: three-letter key to 0-based month. -/
def monthMap0 (s : List Char) : Option Nat :=
  (abbrMonths.findIdx? (· = s)).map id

/-- Alternation `(jan|feb|...|dec)` as capture group `g`. -/
def monthsAlt (g : Nat) : RE :=
  .grp g (altOf (.lit "jan".data) ((abbrMonths.drop 1).map .lit))

def d12 : RE := .rep isDigitChar 1 2

/-- Regex `/(\d{1,2})\s*-\s*(\d{1,2})\s+(jan|...|dec)/i` -/
def nlRange1RE : RE :=
  reseq (.grp 1 d12)
    [.star isWsChar, .lit "-".data, .star isWsChar, .grp 2 d12,
     .plus isWsChar, monthsAlt 3]

/-- Regex `/(\d{1,2})\/(\d{1,2})\s*-\s*(\d{1,2})\/(\d{1,2})/` -/
def nlRange2RE : RE :=
  reseq (.grp 1 d12)
    [.lit "/".data, .grp 2 d12, .star isWsChar, .lit "-".data,
     .star isWsChar, .grp 3 d12, .lit "/".data, .grp 4 d12]

/-- Regex `/(jan|...|dec)\s+(\d{1,2})\s*-\s*(\d{1,2})/i` -/
def nlRange3RE : RE :=
  reseq (monthsAlt 1)
    [.plus isWsChar, .grp 2 d12, .star isWsChar, .lit "-".data,
     .star isWsChar, .grp 3 d12]

/-- Regex `/(\d{1,2})\s+(jan|...|dec)/i` -/
def nlDate1RE : RE := reseq (.grp 1 d12) [.plus isWsChar, monthsAlt 2]

/-- Regex `/(\d{1,2})\/(\d{1,2})\/(\d{4})/` -/
def nlDate2RE : RE :=
  reseq (.grp 1 d12)
    [.lit "/".data, .grp 2 d12, .lit "/".data, .grp 3 (.rep isDigitChar 4 4)]

/-- Regex `/(\d{1,2})\/(\d{1,2})/` -/
def nlDate3RE : RE := reseq (.grp 1 d12) [.lit "/".data, .grp 2 d12]

/-- Regex `/(today|tomorrow)/i` -/
def nlDate4RE : RE := .grp 1 (.alt (.lit "today".data) (.lit "tomorrow".data))

/-- Regex `/(monday|...|sunday)/i` -/
def nlDate5RE : RE :=
  .grp 1 (altOf (.lit "monday".data)
    (["tuesday", "wednesday", "thursday", "friday", "saturday",
      "sunday"].map (fun w => .lit w.data)))

/-- Regex `/(\d{1,2})\s*-\s*(\d{1,2})\s*(am|pm)?/i` -/
def nlTime1RE : RE :=
  reseq (.grp 1 d12)
    [.star isWsChar, .lit "-".data, .star isWsChar, .grp 2 d12,
     .star isWsChar, .opt (.grp 3 (.alt (.lit "am".data) (.lit "pm".data)))]

/-- Regex `/(\d{1,2}):(\d{2})\s*-\s*(\d{1,2}):(\d{2})/` -/
def nlTime2RE : RE :=
  reseq (.grp 1 d12)
    [.lit ":".data, .grp 2 (.rep isDigitChar 2 2), .star isWsChar,
     .lit "-".data, .star isWsChar, .grp 3 d12, .lit ":".data,
     .grp 4 (.rep isDigitChar 2 2)]

/-- Regex `/(\d{1,2})\s*(am|pm)/i` -/
def nlTime3RE : RE :=
  reseq (.grp 1 d12)
    [.star isWsChar, .grp 2 (.alt (.lit "am".data) (.lit "pm".data))]

/-- Title-strip regexes (applied to the original-case input). -/
def strip12RE : RE :=
  reseq (.plus isWsChar)
    [.opt (.grp 1 (.alt (.lit "on".data) (.lit "at".data))), .plus isWsChar,
     d12, .plus isWsChar, monthsAlt 2]

def strip13RE : RE :=
  .seq (.plus isWsChar) (.grp 1 (.alt (.lit "today".data) (.lit "tomorrow".data)))

def strip14RE : RE :=
  reseq (.plus isWsChar)
    [d12, .lit "/".data, d12,
     .opt (.grp 1 (.seq (.lit "/".data) (.rep isDigitChar 4 4)))]

def strip15RE : RE :=
  reseq (.plus isWsChar)
    [d12, .star isWsChar, .lit "-".data, .star isWsChar, d12, .star isWsChar,
     .opt (.grp 1 (.alt (.lit "am".data) (.lit "pm".data)))]

def strip16RE : RE :=
  reseq (.plus isWsChar)
    [d12, .lit ":".data, .rep isDigitChar 2 2, .star isWsChar, .lit "-".data,
     .star isWsChar, d12, .lit ":".data, .rep isDigitChar 2 2]

def strip17RE : RE :=
  reseq (.plus isWsChar)
    [d12, .star isWsChar, .grp 1 (.alt (.lit "am".data) (.lit "pm".data))]

def firstMatch : List RE → List Char → Option RMatch
  | [], _ => none
  | re :: rest, s =>
    match reSearch re s with
    | some m => some m
    | none => firstMatch rest s

/-- Template `` `${year}-${MM}-${dd}` `` with month/day zero-padded as in the
source's string templates (`m` is the number actually printed). -/
def ymdStr (year : Int) (m d : Nat) : List Char :=
  intDigits year ++ '-' :: pad2 (natDigits m) ++ '-' :: pad2 (natDigits d)

/-- The date-range loop: first matching pattern wins, then the
source's capture-shape branches decide what (if anything) is set. -/
def nlRangeStep (lowered : List Char) (year : Int) :
    Option (List Char) × Option (List Char) :=
  match firstMatch [nlRange1RE, nlRange2RE, nlRange3RE] lowered with
  | none => (none, none)
  | some m =>
    let c1 := capGet m.caps 1
    let c2 := capGet m.caps 2
    let c3 := capGet m.caps 3
    let c4 := capGet m.caps 4
    if c3.isSome && c1.isSome && c2.isSome then
      match monthMap0 (lowerStr (c3.getD [])) with
      | some mo =>
        (some (ymdStr year (mo + 1) (natOfDigits (c1.getD []))),
         some (ymdStr year (mo + 1) (natOfDigits (c2.getD []))))
      | none => (none, none)
    else if c1.isSome && c2.isSome && c3.isSome && c4.isSome then
      (some (ymdStr year (natOfDigits (c1.getD [])) (natOfDigits (c2.getD []))),
       some (ymdStr year (natOfDigits (c3.getD [])) (natOfDigits (c4.getD []))))
    else if c1.isSome && c2.isSome && c3.isSome then
      match monthMap0 (lowerStr (c1.getD [])) with
      | some mo =>
        (some (ymdStr year (mo + 1) (natOfDigits (c2.getD []))),
         some (ymdStr year (mo + 1) (natOfDigits (c3.getD []))))
      | none => (none, none)
    else (none, none)

/-- The single-date loop (run only when no range produced a date). -/
def nlSingleStep (lowered : List Char) (today : Int) (year : Int) :
    Option (List Char) :=
  match firstMatch [nlDate1RE, nlDate2RE, nlDate3RE, nlDate4RE, nlDate5RE] lowered with
  | none => none
  | some m =>
    if lowerStr m.matched = "today".data then some (isoOfDays today)
    else if lowerStr m.matched = "tomorrow".data then some (isoOfDays (today + 1))
    else
      match capGet m.caps 1, capGet m.caps 2 with
      | some c1, some c2 =>
        match monthMap0 (lowerStr c2) with
        | some mo => some (ymdStr year (mo + 1) (natOfDigits c1))
        | none => none
      | _, _ => none

def toHH (h : Nat) : List Char := pad2 (natDigits h) ++ ":00".data

/-- The time loop: first matching pattern wins; an hour range sets
both times (PM adds 12 to each non-12 hour), a single hour sets only
the start time. -/
def nlTimeStep (lowered : List Char) : Option (List Char) × Option (List Char) :=
  match firstMatch [nlTime1RE, nlTime2RE, nlTime3RE] lowered with
  | none => (none, none)
  | some m =>
    let c1 := capGet m.caps 1
    let c2 := capGet m.caps 2
    let c3 := capGet m.caps 3
    if c3.isSome && c1.isSome && c2.isSome then
      let isPM := lowerStr (c3.getD []) = "pm".data
      let s0 := natOfDigits (c1.getD [])
      let e0 := natOfDigits (c2.getD [])
      let s := if isPM && s0 ≠ 12 then s0 + 12 else s0
      let e := if isPM && e0 ≠ 12 then e0 + 12 else e0
      (some (toHH s), some (toHH e))
    else if c1.isSome && c2.isSome then
      let isPM := lowerStr (c2.getD []) = "pm".data
      let h0 := natOfDigits (c1.getD [])
      let h := if isPM && h0 ≠ 12 then h0 + 12 else h0
      (some (toHH h), none)
    else (none, none)

/-- Title extraction: textual subtraction of the recognized date and
time phrases from the original-case input, then trim. -/
def nlTitle (input : List Char) (hasDate hasTime : Bool) : List Char :=
  let t := input
  let t := if hasDate then
      replaceFirst strip14RE []
        (replaceFirst strip13RE [] (replaceFirst strip12RE [] t))
    else t
  let t := if hasTime then
      replaceFirst strip17RE []
        (replaceFirst strip16RE [] (replaceFirst strip15RE [] t))
    else t
  trimStr t

/-- The `parsedDate` value of `parseNaturalLanguage`: the range
loop's start date if one was set, else the single-date loop. -/
def nlDateOf (input : String) (today : Int) : Option (List Char) :=
  let lowered := lowerStr (trimStr input.data)
  let year := (civilFromDays today).year
  match (nlRangeStep lowered year).1 with
  | some d => some d
  | none => nlSingleStep lowered today year

/-- The (`startTime`, `endTime`) pair of `parseNaturalLanguage`. -/
def nlTimesOf (input : String) : Option (List Char) × Option (List Char) :=
  nlTimeStep (lowerStr (trimStr input.data))

/-- The stripped, trimmed title of `parseNaturalLanguage`. -/
def nlTitleOf (input : String) (today : Int) : List Char :=
  nlTitle input.data (nlDateOf input today).isSome
    ((nlTimesOf input).1.isSome || (nlTimesOf input).2.isSome)

/-- Model of `parseNaturalLanguage` from dateParser.ts. -/
def parseNaturalLanguage (input : String) (today : Int) : Option ParsedEvent :=
  let lowered := lowerStr (trimStr input.data)
  let ty := nlType lowered
  let year := (civilFromDays today).year
  let rEnd := (nlRangeStep lowered year).2
  let st := (nlTimesOf input).1
  let et := (nlTimesOf input).2
  let title := nlTitleOf input today
  match nlDateOf input today with
  | none => none
  | some d =>
    if title.isEmpty then none
    else
      some ⟨String.mk title, String.mk d, rEnd.map String.mk,
            st.map String.mk, et.map String.mk, ty⟩

/-! ## `assignEventLanes` (quarter-view calendar component)

Events reaching the function are multi-day events (the caller asserts
`event.endDate!`), and week days are compared through
`format(day, 'yyyy-MM-dd')`, i.e. by their ISO date string, so both
sides are modelled as ISO strings compared for equality.  Indices are
`Int` because JS `findIndex` yields `-1` and `weekDays.length - 1`
can be `-1` for an empty week. -/

structure LEvent where
  id : String
  date : String
  endDate : String
deriving Repr, DecidableEq

/-- A week-relative interval (the object `{event, start, end, ...}`;
`end` is called `stop` here because `end` is reserved in Lean). -/
structure Iv where
  eid : String
  start : Int
  stop : Int
deriving Repr, DecidableEq

/-- Index computation for one event: `findIndex` over the week's
days (`-1`, i.e. not found, falls back to `0` for the start and to
`weekDays.length - 1` for the end). -/
def clampIv (weekDays : List String) (e : LEvent) : Iv :=
  { eid := e.id
    start := match weekDays.findIdx? (· = e.date) with
      | some i => (i : Int)
      | none => 0
    stop := match weekDays.findIdx? (· = e.endDate) with
      | some i => (i : Int)
      | none => (weekDays.length : Int) - 1 }

/-- Index computation and the `start <= end` filter. -/
def intervalsOf (events : List LEvent) (weekDays : List String) : List Iv :=
  (events.map (clampIv weekDays)).filter fun iv => iv.start ≤ iv.stop

/-- The sort comparator: start ascending, ties by longer duration
first.  `laneLE a b` holds when the comparator orders `a` no later
than `b`. -/
def laneLE (a b : Iv) : Bool :=
  decide (a.start < b.start) ||
    (a.start == b.start && decide (b.stop - b.start ≤ a.stop - a.start))

/-- Insert `x` after every element ordered no later than it. -/
def insertLe (x : Iv) : List Iv → List Iv
  | [] => [x]
  | y :: ys => if laneLE y x then y :: insertLe x ys else x :: y :: ys

/-- ES2019 `Array.prototype.sort` is a stable sort by the comparator;
with a total preorder any stable sort gives the same list, modelled
here as left-to-right insertion sort. -/
def stableSort (l : List Iv) : List Iv :=
  l.foldl (fun acc x => insertLe x acc) []

/-- Model of `canFit`: the interval overlaps no interval already in the lane
(two intervals overlap unless one ends before the other starts). -/
def laneFits (iv : Iv) (lane : List Iv) : Bool :=
  lane.all fun ex => decide (iv.stop < ex.start) || decide (ex.stop < iv.start)

/-- JS `Map.prototype.set`: update in place or append. -/
def mapSet (m : List (String × Nat)) (k : String) (v : Nat) :
    List (String × Nat) :=
  match m with
  | [] => [(k, v)]
  | (k', v') :: rest =>
    if k' = k then (k, v) :: rest else (k', v') :: mapSet rest k v

/-- The greedy lane scan: push the interval into the first lane it
fits (returning that lane's index), else open a new lane at the end
(its index is the previous number of lanes). -/
def placeIv (iv : Iv) : List (List Iv) → List (List Iv) × Nat
  | [] => ([[iv]], 0)
  | lane :: rest =>
    if laneFits iv lane then ((lane ++ [iv]) :: rest, 0)
    else (lane :: (placeIv iv rest).1, (placeIv iv rest).2 + 1)

/-- One step of the loop over sorted intervals. -/
def placeOne (st : List (List Iv) × List (String × Nat)) (iv : Iv) :
    List (List Iv) × List (String × Nat) :=
  ((placeIv iv st.1).1, mapSet st.2 iv.eid (placeIv iv st.1).2)

/-- The result: the internal `lanes` array (which intervals were
placed in which lane), the `eventLanes` map, and `maxLanes`. -/
structure LaneAssignment where
  lanes : List (List Iv)
  eventLanes : List (String × Nat)
  maxLanes : Nat
deriving Repr, DecidableEq

/-- Model of `assignEventLanes` from the quarter-view calendar component. -/
def assignEventLanes (events : List LEvent) (weekDays : List String) :
    LaneAssignment :=
  if events.isEmpty then ⟨[], [], 0⟩
  else
    let sorted := stableSort (intervalsOf events weekDays)
    let st := sorted.foldl placeOne ([], [])
    ⟨st.1, st.2, st.1.length⟩

/-! ## Auxiliary definitions used by the statements -/

/-- A chrono-node oracle that parses nothing; used to instantiate
theorems on inputs whose date part is handled by the explicit range
patterns, where `chrono.parseDate` is never consulted. -/
def chronoNone : List Char → Option Int := fun _ => none

def readNat (s : List Char) : Option (Nat × List Char) :=
  let ds := s.takeWhile isDigitChar
  if ds.isEmpty then none else some (natOfDigits ds, s.drop ds.length)

/-- Interpret an ISO `YYYY-MM-DD` string as a civil day number (used
only to state chronological comparisons about output strings). -/
def isoToDays (s : String) : Option Int := do
  let (y, r1) ← readNat s.data
  let r2 ← expectChar '-' r1
  let (m, r3) ← readNat r2
  let r4 ← expectChar '-' r3
  let (d, r5) ← readNat r4
  if r5.isEmpty then some (daysFromCivil y m d) else none

/-- Chronological strict order on ISO date strings. -/
def isoLt (a b : String) : Bool :=
  match isoToDays a, isoToDays b with
  | some x, some y => decide (x < y)
  | _, _ => false

end Cal

namespace Cal

set_option maxRecDepth 1000000
set_option maxHeartbeats 1000000

/-! ## Claim theorems -/

/-- C5: `parseLineToEvents` on
`"Product Mngt Leader Review July 9-10, 2025 (Wed-Thu)"` returns
exactly one draft: title `"Product Mngt Leader Review"`, type
MEETING, date `"2025-07-09"`, startDate `"2025-07-09"`, endDate
`"2025-07-10"` — for every behaviour of the chrono-node oracle, which
this input never reaches. -/
theorem C5_range_expansion : ∀ chrono : List Char → Option Int,
    parseLineToEvents chrono "Product Mngt Leader Review July 9-10, 2025 (Wed-Thu)" =
      [⟨.MEETING, "Product Mngt Leader Review", "2025-07-09",
        some "2025-07-09", some "2025-07-10"⟩] :=
  fun _ => rfl

/-- C4: For the three multi-day events spanning week indices
`[0,4]`, `[0,1]` and `[2,3]`, the sort (start ascending, longer
first) followed by greedy first-fit yields two lanes: `[0,4]` alone
in lane 0, `[0,1]` and `[2,3]` sharing lane 1, so `maxLanes = 2`. -/
theorem C4_three_events_two_lanes :
    assignEventLanes
      [⟨"a", "2025-07-07", "2025-07-11"⟩,
       ⟨"b", "2025-07-07", "2025-07-08"⟩,
       ⟨"c", "2025-07-09", "2025-07-10"⟩]
      ["2025-07-07", "2025-07-08", "2025-07-09", "2025-07-10", "2025-07-11"] =
      ⟨[[⟨"a", 0, 4⟩], [⟨"b", 0, 1⟩, ⟨"c", 2, 3⟩]],
       [("a", 0), ("b", 1), ("c", 1)], 2⟩ := by
  decide

/-- C8: `guessType` checks "monthly review" first, then the
holiday keywords, then the meeting keywords: any title containing
"holiday" (lower-cased) but not "monthly review" is typed HOLIDAYS,
even if it also contains "meeting". -/
theorem C8_holiday_before_meeting (title : List Char)
    (hhol : containsSub (lowerStr title) "holiday".data = true)
    (hmr : containsSub (lowerStr title) "monthly review".data = false) :
    guessType title = .HOLIDAYS := by
  simp [guessType, hmr, hhol]

/-- Witness for C8 at the concrete title `"Holiday Party Meeting"`. -/
theorem C8_holiday_before_meeting_witness :
    containsSub (lowerStr "Holiday Party Meeting".data) "holiday".data = true ∧
      containsSub (lowerStr "Holiday Party Meeting".data) "monthly review".data = false ∧
      guessType "Holiday Party Meeting".data = .HOLIDAYS :=
  ⟨by decide, by decide,
   C8_holiday_before_meeting "Holiday Party Meeting".data (by decide) (by decide)⟩

/-! Helper lemmas about `climb`, `eachDay`, `mkBulkDrafts` and
`lineDates`, shared by the bulk-parser claims. -/

theorem climb_length (a : Int) (n : Nat) : (climb a n).length = n := by
  induction n generalizing a with
  | zero => rfl
  | succ k ih => simp [climb, ih]

theorem climb_head? (a : Int) (n : Nat) (h : 0 < n) :
    (climb a n).head? = some a := by
  cases n with
  | zero => exact absurd h (by simp)
  | succ k => rfl

theorem climb_getLast? (n : Nat) : ∀ a : Int,
    (climb a (n + 1)).getLast? = some (a + n) := by
  induction n with
  | zero => intro a; simp [climb]
  | succ k ih =>
    intro a
    have h2 : climb a (k + 2) = a :: climb (a + 1) (k + 1) := rfl
    rw [h2, List.getLast?_cons, ih (a + 1)]
    simp
    omega

/-- The two ends of a multi-day expansion are the two parsed
endpoints, in text order, and they differ. -/
theorem eachDay_ends (a b : Int) (h : 1 < (eachDay a b).length) :
    (eachDay a b).headD 0 = a ∧ (eachDay a b).getLastD 0 = b ∧ a ≠ b := by
  unfold eachDay at *
  split at h
  · next hle =>
    simp only [if_pos hle]
    rw [climb_length] at h
    have hn : (b - a + 1).toNat = (b - a).toNat + 1 := by omega
    rw [List.headD_eq_head?, List.getLastD_eq_getLast?, hn,
      climb_head? _ _ (by omega), climb_getLast?]
    refine ⟨rfl, ?_, by omega⟩
    simp
    omega
  · next hgt =>
    simp only [if_neg hgt]
    rw [List.length_reverse, climb_length] at h
    have hn : (a - b + 1).toNat = (a - b).toNat + 1 := by omega
    rw [List.headD_eq_head?, List.getLastD_eq_getLast?, List.head?_reverse,
      List.getLast?_reverse, hn, climb_head? _ _ (by omega), climb_getLast?]
    refine ⟨?_, rfl, by omega⟩
    simp
    omega

/-- Shape of a draft produced by `mkBulkDrafts`. -/
theorem mkBulkDrafts_shape (ty : EventType) (title : List Char)
    (dates : List Int) (draft : BulkEvent)
    (hmem : draft ∈ mkBulkDrafts ty title dates) :
    (draft.startDate = none ∧ draft.endDate = none) ∨
      (draft.date = String.mk (isoOfDays (dates.headD 0)) ∧
        draft.startDate = some (String.mk (isoOfDays (dates.headD 0))) ∧
        draft.endDate = some (String.mk (isoOfDays (dates.getLastD 0))) ∧
        1 < dates.length) := by
  unfold mkBulkDrafts at hmem
  split at hmem
  · next hlen =>
    rw [List.mem_singleton] at hmem
    subst hmem
    exact Or.inr ⟨rfl, rfl, rfl, hlen⟩
  · next hlen =>
    rw [List.mem_map] at hmem
    obtain ⟨d, -, hd⟩ := hmem
    subst hd
    exact Or.inl ⟨rfl, rfl⟩

theorem datesOf_cases (p q : Option Int) :
    datesOf p q = [] ∨ ∃ a b, datesOf p q = eachDay a b := by
  cases p <;> cases q <;> simp [datesOf]

/-- Lemma: `lineDates` always yields `[]`, a single chrono date, or a full
`eachDayOfInterval` expansion between two parsed endpoints. -/
theorem lineDates_cases (chrono : List Char → Option Int) (weekOf : Bool)
    (datePart : List Char) :
    lineDates chrono weekOf datePart = [] ∨
      (∃ d, lineDates chrono weekOf datePart = [d]) ∨
      (∃ a b, lineDates chrono weekOf datePart = eachDay a b) := by
  unfold lineDates
  dsimp only
  have hr1 : ∀ caps, lineDates.range1Dates caps = [] ∨
      ∃ a b, lineDates.range1Dates caps = eachDay a b := by
    intro caps
    unfold lineDates.range1Dates
    exact datesOf_cases _ _
  have hr2 : ∀ caps, lineDates.range2Dates caps = [] ∨
      ∃ a b, lineDates.range2Dates caps = eachDay a b := by
    intro caps
    unfold lineDates.range2Dates
    exact datesOf_cases _ _
  split
  · split
    · next m _ =>
      rcases hr1 m.caps with h | ⟨a, b, h⟩
      · exact Or.inl h
      · exact Or.inr (Or.inr ⟨a, b, h⟩)
    · exact Or.inl rfl
  · split
    · split
      · next m _ =>
        rcases hr2 m.caps with h | ⟨a, b, h⟩
        · exact Or.inl h
        · exact Or.inr (Or.inr ⟨a, b, h⟩)
      · exact Or.inl rfl
    · split
      · split
        · split
          · next m _ =>
            rcases hr1 m.caps with h | ⟨a, b, h⟩
            · exact Or.inl h
            · exact Or.inr (Or.inr ⟨a, b, h⟩)
          · exact Or.inl rfl
        · split
          · split
            · next m _ =>
              rcases hr2 m.caps with h | ⟨a, b, h⟩
              · exact Or.inl h
              · exact Or.inr (Or.inr ⟨a, b, h⟩)
            · exact Or.inl rfl
          · split
            · next d _ => exact Or.inr (Or.inr ⟨d, d + 4, rfl⟩)
            · exact Or.inl rfl
      · split
        · next d _ => exact Or.inr (Or.inl ⟨d, rfl⟩)
        · exact Or.inl rfl

/-- Membership in `parseLineToEvents` is membership in the final
`mkBulkDrafts` over that line's `lineDates`. -/
theorem parseLineToEvents_mem (chrono : List Char → Option Int) (line : String)
    (draft : BulkEvent) (hmem : draft ∈ parseLineToEvents chrono line) :
    ∃ ty title dates,
      (dates = [] ∨ (∃ d, dates = [d]) ∨ (∃ a b, dates = eachDay a b)) ∧
      draft ∈ mkBulkDrafts ty title dates := by
  unfold parseLineToEvents at hmem
  dsimp only at hmem
  split at hmem
  · exact absurd hmem (by simp)
  · exact ⟨_, _, _, lineDates_cases _ _ _, hmem⟩

/-- C1 counterexample: With the current day 2025-10-01,
`parseNaturalLanguage "holiday 15-17 oct"` returns a draft that sets
an end date *and* a start time together: its date-range detection and
its time detection are independent and the `"15-17"` day pair also
matches the hour-range pattern, so the two "shapes" are mixed.
(There is also no `startDate` field at all in this parser's output.) -/
theorem C1_counterexample :
    parseNaturalLanguage "holiday 15-17 oct" (daysFromCivil 2025 10 1) =
      some ⟨"holidayoct", "2025-10-15", some "2025-10-17", some "15:00", none,
            some .HOLIDAYS⟩ ∧
    (parseNaturalLanguage "holiday 15-17 oct" (daysFromCivil 2025 10 1)).any
        (fun d => d.endDate.isSome && d.startTime.isSome) = true :=
  ⟨by decide, by decide⟩

/-- C2 counterexample: `parseLineToEvents` on
`"Review July 10-9, 2025"` returns an inverted range: date-fns v3
`eachDayOfInterval` no longer throws on an inverted interval but
returns the days from the (later) start down to the (earlier) end, so
the draft's `endDate` 2025-07-09 is strictly before its `date`
2025-07-10.  `parseNaturalLanguage` likewise copies a descending day
pair verbatim ("meeting 17-15 oct", current day 2025-10-01). -/
theorem C2_counterexample :
    parseLineToEvents chronoNone "Review July 10-9, 2025" =
      [⟨.MEETING, "Review", "2025-07-10", some "2025-07-10", some "2025-07-09"⟩] ∧
    isoLt "2025-07-09" "2025-07-10" = true ∧
    parseNaturalLanguage "meeting 17-15 oct" (daysFromCivil 2025 10 1) =
      some ⟨"meetingoct", "2025-10-17", some "2025-10-15", some "17:00", none,
            some .MEETING⟩ ∧
    isoLt "2025-10-15" "2025-10-17" = true :=
  ⟨by decide, by decide, by decide, by decide⟩

/-- C7 counterexample: An event whose range (2025-08-04 to
2025-08-05) lies strictly after every day of the displayed week
(2025-07-07 .. 2025-07-11) is *not* dropped: both `findIndex` calls
miss, the indices are clamped to `0` and `weekDays.length - 1`, and
the event is assigned lane 0 spanning the whole week. -/
theorem C7_counterexample :
    assignEventLanes [⟨"e1", "2025-08-04", "2025-08-05"⟩]
        ["2025-07-07", "2025-07-08", "2025-07-09", "2025-07-10", "2025-07-11"] =
      ⟨[[⟨"e1", 0, 4⟩]], [("e1", 0)], 1⟩ ∧
    (["2025-07-07", "2025-07-08", "2025-07-09", "2025-07-10",
      "2025-07-11"] : List String).all (fun d => isoLt d "2025-08-04") = true :=
  ⟨by decide, by decide⟩

/-- C1 amended: `parseLineToEvents` keeps the two-shape
invariant (its drafts carry no time fields at all): every draft
either has neither `startDate` nor `endDate`, or has both with
`date = startDate`.  (`parseNaturalLanguage` does not: see the
counterexample, and its output has no `startDate` field.) -/
theorem C1_bulk_two_shapes (chrono : List Char → Option Int) (line : String)
    (draft : BulkEvent) (hmem : draft ∈ parseLineToEvents chrono line) :
    (draft.startDate = none ∧ draft.endDate = none) ∨
      (∃ e, draft.startDate = some draft.date ∧ draft.endDate = some e) := by
  obtain ⟨ty, title, dates, -, hmk⟩ := parseLineToEvents_mem chrono line draft hmem
  rcases mkBulkDrafts_shape ty title dates draft hmk with ⟨h1, h2⟩ | ⟨hd, hs, he, -⟩
  · exact Or.inl ⟨h1, h2⟩
  · exact Or.inr ⟨_, by rw [hs, hd], he⟩

/-- Witness for the amended C1 on a concrete multi-day line. -/
theorem C1_bulk_two_shapes_witness :
    (⟨.PLANNING, "Offsite", "2025-07-09", some "2025-07-09",
        some "2025-07-10"⟩ : BulkEvent) ∈
      parseLineToEvents chronoNone "Offsite July 9-10, 2025" ∧
    (((some "2025-07-09" : Option String) = none ∧
        (some "2025-07-10" : Option String) = none) ∨
      ∃ e, (some "2025-07-09" : Option String) = some "2025-07-09" ∧
        (some "2025-07-10" : Option String) = some e) :=
  ⟨by decide,
   C1_bulk_two_shapes chronoNone "Offsite July 9-10, 2025"
     ⟨.PLANNING, "Offsite", "2025-07-09", some "2025-07-09", some "2025-07-10"⟩
     (by decide)⟩

/-- C2 amended: In `parseLineToEvents`, whenever a draft sets
an end date, `date` and `startDate` are the ISO string of the matched
range's first endpoint and `endDate` that of its second, and the two
endpoints differ — but no order between them is guaranteed (the
counterexample shows an inverted pair is reproduced verbatim; the
same holds for `parseNaturalLanguage`). -/
theorem C2_bulk_endpoints (chrono : List Char → Option Int) (line : String)
    (draft : BulkEvent) (e : String)
    (hmem : draft ∈ parseLineToEvents chrono line)
    (he : draft.endDate = some e) :
    ∃ s t : Int, s ≠ t ∧ draft.date = String.mk (isoOfDays s) ∧
      draft.startDate = some (String.mk (isoOfDays s)) ∧
      e = String.mk (isoOfDays t) := by
  obtain ⟨ty, title, dates, hcases, hmk⟩ :=
    parseLineToEvents_mem chrono line draft hmem
  rcases mkBulkDrafts_shape ty title dates draft hmk with
    ⟨-, h2⟩ | ⟨hd, hs, hend, hlen⟩
  · rw [h2] at he
    exact absurd he (by simp)
  · rcases hcases with h | ⟨d, h⟩ | ⟨a, b, h⟩
    · rw [h] at hlen
      exact absurd hlen (by simp)
    · rw [h] at hlen
      exact absurd hlen (by simp)
    · subst h
      obtain ⟨hh, hl, hne⟩ := eachDay_ends a b hlen
      rw [hend, hl] at he
      refine ⟨a, b, hne, ?_, ?_, ?_⟩
      · rw [hd, hh]
      · rw [hs, hh]
      · exact (Option.some_inj.mp he).symm

/-- Witness for the amended C2 on a concrete multi-day line. -/
theorem C2_bulk_endpoints_witness :
    (⟨.PLANNING, "Summit", "2025-07-14", some "2025-07-14",
        some "2025-07-15"⟩ : BulkEvent) ∈
      parseLineToEvents chronoNone "Summit July 14-15, 2025" ∧
    ∃ s t : Int, s ≠ t ∧ ("2025-07-14" : String) = String.mk (isoOfDays s) ∧
      (some "2025-07-14" : Option String) = some (String.mk (isoOfDays s)) ∧
      ("2025-07-15" : String) = String.mk (isoOfDays t) :=
  ⟨by decide,
   C2_bulk_endpoints chronoNone "Summit July 14-15, 2025"
     ⟨.PLANNING, "Summit", "2025-07-14", some "2025-07-14", some "2025-07-15"⟩
     "2025-07-15" (by decide) rfl⟩

/-- C6: For every current day, `parseNaturalLanguage
"Team Meeting tomorrow 2-4pm"` yields type MEETING, date equal to
the next day's ISO string, start time `"14:00"`, end time `"16:00"`
(PM applied to both bounds) and title `"Team Meeting"`. -/
theorem C6_team_meeting_tomorrow (today : Int) :
    parseNaturalLanguage "Team Meeting tomorrow 2-4pm" today =
      some ⟨"Team Meeting", String.mk (isoOfDays (today + 1)), none,
            some "14:00", some "16:00", some .MEETING⟩ := by
  have hlowered : lowerStr (trimStr "Team Meeting tomorrow 2-4pm".data) =
      "team meeting tomorrow 2-4pm".data := by decide
  have hr : firstMatch [nlRange1RE, nlRange2RE, nlRange3RE]
      "team meeting tomorrow 2-4pm".data = none := by decide
  have hs : firstMatch [nlDate1RE, nlDate2RE, nlDate3RE, nlDate4RE, nlDate5RE]
      "team meeting tomorrow 2-4pm".data =
      some ⟨13, "tomorrow".data, [(1, "tomorrow".data)]⟩ := by decide
  have hrange : ∀ y : Int,
      nlRangeStep "team meeting tomorrow 2-4pm".data y = (none, none) := by
    intro y
    unfold nlRangeStep
    rw [hr]
  have hdate : nlDateOf "Team Meeting tomorrow 2-4pm" today =
      some (isoOfDays (today + 1)) := by
    unfold nlDateOf nlSingleStep
    simp only [hlowered, hrange, hs]
    rfl
  have htimes : nlTimesOf "Team Meeting tomorrow 2-4pm" =
      (some "14:00".data, some "16:00".data) := by decide
  have htitle : nlTitleOf "Team Meeting tomorrow 2-4pm" today =
      "Team Meeting".data := by
    unfold nlTitleOf
    simp only [hdate, htimes, Option.isSome_some]
    decide
  unfold parseNaturalLanguage
  simp only [hlowered, hrange, hdate, htimes, htitle]
  rfl

/-! Helper lemmas for the lane-assignment claims. -/

/-- The code's notion of "not overlapping": one ends before the
other starts. -/
def ivSeparated (a b : Iv) : Prop := a.stop < b.start ∨ b.stop < a.start

theorem laneFits_sep (iv : Iv) (lane : List Iv)
    (h : laneFits iv lane = true) : ∀ x ∈ lane, ivSeparated x iv := by
  intro x hx
  unfold laneFits at h
  rw [List.all_eq_true] at h
  have hx' := h x hx
  simp only [Bool.or_eq_true, decide_eq_true_eq] at hx'
  rcases hx' with h1 | h1
  · exact Or.inr h1
  · exact Or.inl h1

theorem placeIv_pairwise (iv : Iv) :
    ∀ lanes : List (List Iv), (∀ l ∈ lanes, l.Pairwise ivSeparated) →
      ∀ l ∈ (placeIv iv lanes).1, l.Pairwise ivSeparated := by
  intro lanes
  induction lanes with
  | nil =>
    intro _ l hl
    simp only [placeIv, List.mem_singleton] at hl
    subst hl
    simp
  | cons lane rest ih =>
    intro hall l hl
    simp only [placeIv] at hl
    by_cases hfit : laneFits iv lane = true
    · rw [if_pos hfit] at hl
      dsimp only at hl
      rcases List.mem_cons.mp hl with hEq | hMem
      · rw [hEq, List.pairwise_append]
        refine ⟨hall lane (by simp), by simp, ?_⟩
        intro a ha b hb
        rw [List.mem_singleton] at hb
        rw [hb]
        exact laneFits_sep iv lane hfit a ha
      · exact hall l (List.mem_cons_of_mem _ hMem)
    · rw [if_neg hfit] at hl
      dsimp only at hl
      rcases List.mem_cons.mp hl with hEq | hMem
      · rw [hEq]
        exact hall lane (by simp)
      · exact ih (fun l' hl' => hall l' (List.mem_cons_of_mem _ hl')) l hMem

theorem foldl_pairwise (ivs : List Iv) :
    ∀ st : List (List Iv) × List (String × Nat),
      (∀ l ∈ st.1, l.Pairwise ivSeparated) →
      ∀ l ∈ (ivs.foldl placeOne st).1, l.Pairwise ivSeparated := by
  induction ivs with
  | nil => intro st h; simpa using h
  | cons iv rest ih =>
    intro st h
    rw [List.foldl_cons]
    refine ih (placeOne st iv) ?_
    unfold placeOne
    dsimp only
    exact placeIv_pairwise iv st.1 h

theorem placeIv_flatten (iv : Iv) : ∀ lanes : List (List Iv),
    ((placeIv iv lanes).1).flatten.Perm (iv :: lanes.flatten) := by
  intro lanes
  induction lanes with
  | nil => simp [placeIv]
  | cons lane rest ih =>
    simp only [placeIv]
    by_cases hfit : laneFits iv lane = true
    · rw [if_pos hfit]
      dsimp only
      simp only [List.flatten_cons, List.append_assoc, List.singleton_append]
      exact List.perm_middle
    · rw [if_neg hfit]
      dsimp only
      simp only [List.flatten_cons]
      refine (ih.append_left lane).trans ?_
      exact List.perm_middle

theorem foldl_flatten : ∀ (ivs : List Iv)
    (st : List (List Iv) × List (String × Nat)),
    ((ivs.foldl placeOne st).1).flatten.Perm (st.1.flatten ++ ivs)
  | [], st => by simp
  | iv :: rest, st => by
    rw [List.foldl_cons]
    refine (foldl_flatten rest (placeOne st iv)).trans ?_
    have h2 : ((placeOne st iv).1).flatten.Perm (iv :: st.1.flatten) := by
      unfold placeOne
      dsimp only
      exact placeIv_flatten iv st.1
    refine (h2.append_right rest).trans ?_
    rw [List.cons_append]
    exact List.perm_middle.symm

theorem insertLe_perm (x : Iv) : ∀ l : List Iv, (insertLe x l).Perm (x :: l) := by
  intro l
  induction l with
  | nil => simp [insertLe]
  | cons y ys ih =>
    unfold insertLe
    split
    · exact (ih.cons y).trans (List.Perm.swap x y ys)
    · exact List.Perm.refl _

theorem foldl_insert_perm : ∀ (l acc : List Iv),
    (l.foldl (fun acc x => insertLe x acc) acc).Perm (acc ++ l)
  | [], acc => by simp
  | x :: xs, acc => by
    rw [List.foldl_cons]
    refine (foldl_insert_perm xs (insertLe x acc)).trans ?_
    refine ((insertLe_perm x acc).append_right xs).trans ?_
    rw [List.cons_append]
    exact List.perm_middle.symm

theorem stableSort_perm (l : List Iv) : (stableSort l).Perm l := by
  simpa using foldl_insert_perm l []

/-- C3: In every lane produced by `assignEventLanes`, the stored
intervals are pairwise non-overlapping (the greedy scan only adds an
interval to a lane after checking it against every interval already
there), so two events assigned the same lane never overlap. -/
theorem C3_no_overlap_within_lane (events : List LEvent)
    (weekDays : List String) (lane : List Iv)
    (h : lane ∈ (assignEventLanes events weekDays).lanes) :
    lane.Pairwise ivSeparated := by
  unfold assignEventLanes at h
  split at h
  · simp at h
  · dsimp only at h
    exact foldl_pairwise _ _ (by simp) lane h

/-- Witness for C3: a week where two events share lane 0. -/
theorem C3_no_overlap_within_lane_witness :
    ([⟨"d", 0, 1⟩, ⟨"e", 3, 4⟩] : List Iv) ∈
      (assignEventLanes
        [⟨"d", "2025-03-03", "2025-03-04"⟩, ⟨"e", "2025-03-06", "2025-03-07"⟩]
        ["2025-03-03", "2025-03-04", "2025-03-05", "2025-03-06",
         "2025-03-07"]).lanes ∧
    ([⟨"d", 0, 1⟩, ⟨"e", 3, 4⟩] : List Iv).Pairwise ivSeparated :=
  ⟨by decide,
   C3_no_overlap_within_lane
     [⟨"d", "2025-03-03", "2025-03-04"⟩, ⟨"e", "2025-03-06", "2025-03-07"⟩]
     ["2025-03-03", "2025-03-04", "2025-03-05", "2025-03-06", "2025-03-07"]
     [⟨"d", 0, 1⟩, ⟨"e", 3, 4⟩] (by decide)⟩

/-- C7 amended: The intervals placed into lanes are exactly
(a permutation of) the events' *clamped* intervals that satisfy
`start ≤ end`: the start index is `findIndex` of the start date (0
when absent), the end index `findIndex` of the end date
(`weekDays.length - 1` when absent).  Clamping is not intersection:
see the counterexample, where a disjoint event is still placed. -/
theorem C7_clamped_assignment (events : List LEvent) (weekDays : List String) :
    ((assignEventLanes events weekDays).lanes).flatten.Perm
      ((events.map (clampIv weekDays)).filter fun iv => iv.start ≤ iv.stop) := by
  unfold assignEventLanes
  split
  · next hempty =>
    have hnil : events = [] := List.isEmpty_iff.mp hempty
    subst hnil
    simp
  · dsimp only
    refine (foldl_flatten _ _).trans ?_
    simp only [List.flatten_nil, List.nil_append]
    exact stableSort_perm _

/-- C9: `parseNaturalLanguage` returns `none` exactly when no
date was extracted or the stripped-and-trimmed title is empty; in
particular `"2-4pm"` yields `none` for every reference day (no date
pattern matches it, even though its time range parses), and every
`some` result has a non-empty title (its `date` field is always
populated by construction). -/
theorem C9_null_exactly :
    (∀ (input : String) (today : Int),
        parseNaturalLanguage input today = none ↔
          (nlTitleOf input today = [] ∨ nlDateOf input today = none)) ∧
    (∀ today : Int, parseNaturalLanguage "2-4pm" today = none) ∧
    (∀ (input : String) (today : Int) (d : ParsedEvent),
        parseNaturalLanguage input today = some d → d.title ≠ "") := by
  have hmain : ∀ (input : String) (today : Int),
      parseNaturalLanguage input today = none ↔
        (nlTitleOf input today = [] ∨ nlDateOf input today = none) := by
    intro input today
    unfold parseNaturalLanguage
    dsimp only
    cases hd : nlDateOf input today with
    | none => simp
    | some v =>
      dsimp only
      by_cases ht : (nlTitleOf input today).isEmpty = true
      · rw [if_pos ht]
        simp [List.isEmpty_iff.mp ht]
      · rw [if_neg ht]
        have hne : ¬nlTitleOf input today = [] := by
          intro hc
          exact ht (List.isEmpty_iff.mpr hc)
        simp [hne]
  refine ⟨hmain, ?_, ?_⟩
  · intro today
    rw [hmain]
    right
    have h1 : firstMatch [nlRange1RE, nlRange2RE, nlRange3RE]
        "2-4pm".data = none := by decide
    have h2 : firstMatch [nlDate1RE, nlDate2RE, nlDate3RE, nlDate4RE, nlDate5RE]
        "2-4pm".data = none := by decide
    have hlowered : lowerStr (trimStr "2-4pm".data) = "2-4pm".data := by decide
    have hrange : ∀ y : Int, nlRangeStep "2-4pm".data y = (none, none) := by
      intro y
      unfold nlRangeStep
      rw [h1]
    unfold nlDateOf nlSingleStep
    simp only [hlowered, hrange, h2]
  · intro input today d hsome
    unfold parseNaturalLanguage at hsome
    dsimp only at hsome
    revert hsome
    cases hd : nlDateOf input today with
    | none =>
      intro hsome
      exact absurd hsome (by simp)
    | some v =>
      intro hsome
      dsimp only at hsome
      by_cases ht : (nlTitleOf input today).isEmpty = true
      · rw [if_pos ht] at hsome
        exact absurd hsome (by simp)
      · rw [if_neg ht] at hsome
        have hd' := Option.some_inj.mp hsome
        intro hcontra
        rw [← hd'] at hcontra
        have hdata : nlTitleOf input today = [] := by
          simpa using congrArg String.data hcontra
        exact ht (List.isEmpty_iff.mpr hdata)

/-- Witness for C9: the theorem applied at `"2-4pm"` (null branch)
and at a successful parse, whose title is indeed non-empty. -/
theorem C9_null_exactly_witness :
    parseNaturalLanguage "2-4pm" (0 : Int) = none ∧
      ("Demo" : String) ≠ "" :=
  ⟨C9_null_exactly.2.1 0,
   C9_null_exactly.2.2 "Demo tomorrow 2-4pm" 0
     ⟨"Demo", "1970-01-02", none, some "14:00", some "16:00", none⟩
     (by decide)⟩

/-- The time loop can only set `endTime` in the branch that also
sets `startTime`. -/
theorem nlTimeStep_snd_isSome (lowered : List Char)
    (h : (nlTimeStep lowered).2.isSome = true) :
    (nlTimeStep lowered).1.isSome = true := by
  unfold nlTimeStep at h ⊢
  revert h
  cases hm : firstMatch [nlTime1RE, nlTime2RE, nlTime3RE] lowered with
  | none =>
    intro h
    simp at h
  | some m =>
    intro h
    dsimp only at h ⊢
    split_ifs at h ⊢ <;> simp_all

/-- C10: Every `some` result of `parseNaturalLanguage` that has
`endTime` set also has `startTime` set. -/
theorem C10_endTime_requires_startTime (input : String) (today : Int)
    (d : ParsedEvent) (h : parseNaturalLanguage input today = some d)
    (he : d.endTime.isSome = true) : d.startTime.isSome = true := by
  unfold parseNaturalLanguage at h
  dsimp only at h
  revert h
  cases hd : nlDateOf input today with
  | none =>
    intro h
    exact absurd h (by simp)
  | some v =>
    intro h
    dsimp only at h
    by_cases ht : (nlTitleOf input today).isEmpty = true
    · rw [if_pos ht] at h
      exact absurd h (by simp)
    · rw [if_neg ht] at h
      have hd' := Option.some_inj.mp h
      rw [← hd'] at he ⊢
      dsimp only at he ⊢
      unfold nlTimesOf at he ⊢
      cases hsnd : (nlTimeStep (lowerStr (trimStr input.data))).2 with
      | none =>
        rw [hsnd] at he
        simp at he
      | some t =>
        have : (nlTimeStep (lowerStr (trimStr input.data))).1.isSome = true :=
          nlTimeStep_snd_isSome _ (by rw [hsnd]; rfl)
        cases hfst : (nlTimeStep (lowerStr (trimStr input.data))).1 with
        | none => rw [hfst] at this; simp at this
        | some s => rfl

/-- Witness for C10 at a concrete parse with an end time. -/
theorem C10_endTime_requires_startTime_witness :
    parseNaturalLanguage "Demo tomorrow 2-4pm" (0 : Int) =
        some ⟨"Demo", "1970-01-02", none, some "14:00", some "16:00", none⟩ ∧
      (ParsedEvent.startTime
        ⟨"Demo", "1970-01-02", none, some "14:00", some "16:00", none⟩).isSome =
        true :=
  ⟨by decide,
   C10_endTime_requires_startTime "Demo tomorrow 2-4pm" 0
     ⟨"Demo", "1970-01-02", none, some "14:00", some "16:00", none⟩
     (by decide) (by decide)⟩

end Cal
